import Mathlib

/-
Verification of the MEXC trading bot against its specification.

The Python sources are shallowly embedded: Python floats are modelled as
exact rationals (the spec's own design notes mandate decimal arithmetic),
Python strings as Lean strings processed through their character lists,
exceptions as Option/Except, and the network as explicit environments of
responses.  Each embedded definition carries a comment naming the source
function it translates.
-/

namespace MEXC

/-! ## Python rounding

Python's builtin `round` rounds half to even (banker's rounding).
`roundHalfEven x` is `round(x)`; `pyRound x n` is `round(x, n)`. -/

/-- Banker's rounding of a rational to an integer, as Python's `round(x)`. -/
def roundHalfEven (x : ℚ) : ℤ :=
  if x - (⌊x⌋ : ℚ) < 1/2 then ⌊x⌋
  else if 1/2 < x - (⌊x⌋ : ℚ) then ⌊x⌋ + 1
  else if 2 ∣ ⌊x⌋ then ⌊x⌋ else ⌊x⌋ + 1

/-- Python's `round(x, n)` for a nonnegative digit count `n`. -/
def pyRound (x : ℚ) (n : ℕ) : ℚ :=
  (roundHalfEven (x * 10 ^ n) : ℚ) / 10 ^ n

/-! ## String helpers

Embeddings of the Python string operations used by `format_quantity`
(`mexc_client.py`): substring test (`in`), `rstrip('0')`, `split('.')`,
and `float(...)` on plain decimal literals. -/

/-- Does `needle` occur as a prefix of `hay`? (helper for the substring test) -/
def startsWith : List Char → List Char → Bool
  | [], _ => true
  | _ :: _, [] => false
  | a :: as, b :: bs => a == b && startsWith as bs

/-- Occurrence of `needle` anywhere in `hay`, as Python's `needle in hay`. -/
def hasSub (hay needle : List Char) : Bool :=
  startsWith needle hay ||
    match hay with
    | [] => false
    | _ :: t => hasSub t needle

/-- Python's substring test `needle in hay` on strings. -/
def strContains (hay needle : String) : Bool :=
  hasSub hay.toList needle.toList

/-- Python `s.rstrip('0')`. -/
def dropRightZeros (l : List Char) : List Char :=
  (l.reverse.dropWhile (fun c => c == '0')).reverse

/-- Python `s.split('.')`. -/
def splitDot : List Char → List (List Char)
  | [] => [[]]
  | c :: t =>
    if c == '.' then [] :: splitDot t
    else
      match splitDot t with
      | [] => [[c]]
      | h :: r => (c :: h) :: r

/-- Numeric value of a decimal digit character. -/
def charDigit (c : Char) : ℕ := c.toNat - 48

/-- Value of a digit string read in base 10. -/
def digitsVal (l : List Char) : ℕ :=
  l.foldl (fun a c => 10 * a + charDigit c) 0

/-- Syntactic parts of a decimal literal: sign, integer part, fractional
part and its digit count. -/
structure ParsedFloat where
  neg : Bool
  intPart : ℕ
  fracPart : ℕ
  fracLen : ℕ
deriving DecidableEq

/-- Rational value denoted by a parsed decimal literal. -/
def ParsedFloat.val (p : ParsedFloat) : ℚ :=
  (if p.neg then -1 else 1) * ((p.intPart : ℚ) + (p.fracPart : ℚ) / 10 ^ p.fracLen)

/-- Optional sign at the front of a numeric literal; `true` means negative. -/
def stripSignB (l : List Char) : Bool × List Char :=
  match l with
  | c :: t => if c == '-' then (true, t) else if c == '+' then (false, t) else (false, l)
  | [] => (false, l)

/-- Parse a plain decimal literal (optional sign, digits, optional single
dot).  Anything else — the inputs on which Python `float` would raise
`ValueError`, plus exotic forms such as exponents that no exchange step
size uses — yields `none`. -/
def parse_float_chars (l : List Char) : Option ParsedFloat :=
  match splitDot (stripSignB l).2 with
  | [w] =>
    if w.all Char.isDigit && !w.isEmpty then
      some ⟨(stripSignB l).1, digitsVal w, 0, 0⟩
    else none
  | [w, f] =>
    if w.all Char.isDigit && f.all Char.isDigit && !(w.isEmpty && f.isEmpty) then
      some ⟨(stripSignB l).1, digitsVal w, digitsVal f, f.length⟩
    else none
  | _ => none

/-- Python `float(s)` on the character list of `s` (see `parse_float_chars`). -/
def float_of_chars (l : List Char) : Option ℚ :=
  (parse_float_chars l).map ParsedFloat.val

/-- Python `float(s)` (see `float_of_chars`). -/
def float_of_string (s : String) : Option ℚ :=
  float_of_chars s.toList

/-- Decimal places implied by a step size string: the source computes
`len(step_size.rstrip('0').split('.')[1]) if '.' in step_size else 0`
(`mexc_client.py`, format_quantity). -/
def dp_of_chars (l : List Char) : ℕ :=
  if '.' ∈ l then
    match splitDot (dropRightZeros l) with
    | _ :: f :: _ => f.length
    | _ => 0
  else 0

/-- Decimal places implied by a step size string (see `dp_of_chars`). -/
def step_decimal_places (s : String) : ℕ :=
  dp_of_chars s.toList

/-! ## Quantity formatting

Embedding of `MexcClient.format_quantity` (`mexc_client.py` lines
1578-1631).  The symbol is the client's `_current_symbol` attribute,
`'UNKNOWN'` when never set; it is passed explicitly here. -/

/-- Heuristic step substitution for USDT pairs with an implausibly small
reported step (`mexc_client.py` lines 1586-1604): returns the
`(decimal places, step)` pair actually used. -/
def heuristic_step (symbol : String) (dp : ℕ) (step_float : ℚ) : ℕ × ℚ :=
  if strContains symbol "USDT" = true ∧ step_float < 1/1000 then
    if strContains symbol "BTC" || strContains symbol "ETH" then (3, 1/1000)
    else if strContains symbol "XRP" || strContains symbol "ADA" ||
        strContains symbol "DOGE" || strContains symbol "SHIB" then (1, 1/10)
    else (2, 1/100)
  else (dp, step_float)

/-- Core arithmetic of `format_quantity`: round to `dp` decimals, snap to
the nearest multiple of `step_float` when it is positive, round again. -/
def apply_step (dp : ℕ) (step_float : ℚ) (quantity : ℚ) : ℚ :=
  if 0 < step_float then
    pyRound ((roundHalfEven (pyRound quantity dp / step_float) : ℚ) * step_float) dp
  else pyRound quantity dp

/-- Emergency fallback of `format_quantity` when step parsing raises
(`mexc_client.py` lines 1619-1631). -/
def fallback_quantity (symbol : String) (quantity : ℚ) : ℚ :=
  if strContains symbol "XRP" then pyRound quantity 1
  else if strContains symbol "BTC" || strContains symbol "ETH" then pyRound quantity 3
  else pyRound quantity 2

/-- `MexcClient.format_quantity(quantity, step_size)`: the whole function,
with the `try/except` modelled by the `Option` returned by `float(...)`
(the only fallible operation in the `try` body). -/
def format_quantity (symbol : String) (quantity : ℚ) (step_size : String) : ℚ :=
  match float_of_string step_size with
  | none => fallback_quantity symbol quantity
  | some step_float =>
    let p := heuristic_step symbol (step_decimal_places step_size) step_float
    apply_step p.1 p.2 quantity

/-- Truncation toward zero of a rational to an integer. -/
def truncToward0 (x : ℚ) : ℤ :=
  if 0 ≤ x then ⌊x⌋ else -⌊-x⌋

/-- Follows the WORDS OF THE SPEC for `format_qty`, not the source, for
comparison against `format_quantity`: round `raw` down (toward zero) to
the nearest multiple of `step`, then truncate to `dp` decimal places. -/
def spec_format_qty_claimed (raw step : ℚ) (dp : ℕ) : ℚ :=
  let m := (truncToward0 (raw / step) : ℚ) * step
  (truncToward0 (m * 10 ^ dp) : ℚ) / 10 ^ dp

/-! ## Trading window gate

Embedding of `TradingEngine.is_trading_time` (`trading_engine.py` lines
276-301).  A window's `"HH:MM"` strings are represented parsed, as
seconds since local midnight; `datetime.now().astimezone(tz).time()` is
abstracted as an environment mapping a time zone name to the current
local time in seconds since midnight (strictly below 86400). -/

structure TradingWindow where
  start_time : ℕ
  end_time : ℕ
  timezone : String

/-- Containment test of one window, exactly as the loop body of
`is_trading_time`: inclusive bounds, overnight when start > end. -/
def window_contains (w : TradingWindow) (t : ℕ) : Bool :=
  if w.start_time ≤ w.end_time then decide (w.start_time ≤ t ∧ t ≤ w.end_time)
  else decide (w.start_time ≤ t ∨ t ≤ w.end_time)

/-- `TradingEngine.is_trading_time`: true when no windows are configured,
otherwise the loop returns true on the first matching window and false
after the loop. -/
def is_trading_time (windows : List TradingWindow) (localNow : String → ℕ) : Bool :=
  if windows.isEmpty then true
  else windows.any fun w => window_contains w (localNow w.timezone)

/-- The overnight window `22:00-06:00 UTC` of the spec's boundary example. -/
def overnight_utc : TradingWindow :=
  ⟨22 * 3600, 6 * 3600, "UTC"⟩

/-! ## Exchange request layer

Embedding of the response handling of `MexcClient._make_request`
(`mexc_client.py` lines 61-119).  The network is modelled as the list of
responses the transport would hand to successive HTTP attempts; JSON
parsing of a 200 body is abstracted (the body is returned raw). -/

/-- Error text raised for a non-200 response. -/
def api_error_msg (status : ℕ) (body : String) : String :=
  "MEXC API Error " ++ toString status ++ ": " ++ body

/-- Handling of a single HTTP response: 200 returns the body, anything
else raises.  The source has no other status branch — in particular no
429 branch. -/
def handle_response (status : ℕ) (body : String) : Except String String :=
  if status = 200 then .ok body else .error (api_error_msg status body)

/-- `_make_request` issues exactly one HTTP request and inspects only the
first response; the rest of the stream is never consulted. -/
def make_request : List (ℕ × String) → Except String String
  | [] => .error "no response"
  | r :: _ => handle_response r.1 r.2

/-- `TradingEngine.get_current_price` (`trading_engine.py` lines 363-370):
extract `float(ticker['price'])` from the client result; the `except`
clause logs and re-raises.  The client call outcome is passed in:
`.ok (some p)` a ticker dict with a price, `.ok none` a dict without the
`'price'` key (so the indexing raises), `.error` a raised request error. -/
def get_current_price (ticker : Except String (Option ℚ)) : Except String ℚ :=
  match ticker with
  | .ok (some p) => .ok p
  | .ok none => .error "KeyError: price"
  | .error e => .error e

/-! ## Sequential bracket monitor

Embedding of the `protected` branch of
`TradingEngine._monitor_sequential_bracket_position`
(`trading_engine.py` lines 1309-1473).  The exchange is an oracle
environment fixed for the tick; the tick records which exit actually
closed the position (set `position_closed` with a completed closing
action) in its `exits` trace, in source order. -/

/-- Result of polling a native order's status; `canceledLike` covers
CANCELED/REJECTED/EXPIRED, `err` a raised (and swallowed) exception. -/
inductive OrderStat
  | filled
  | canceledLike
  | other
  | err
deriving DecidableEq

/-- Outcome of the closing MARKET SELL issued by the software stop loss. -/
inductive SellOutcome
  | ok
  | oversold
  | otherErr
deriving DecidableEq

/-- Exchange behaviour during one monitor tick. -/
structure MonitorEnv where
  price : Option ℚ
  slStatus : OrderStat
  tpStatus : OrderStat
  slSell : SellOutcome
  emergency : Bool
  tpSell : Bool

/-- The fields of a `protected` sequential position read by the monitor. -/
structure SeqPosition where
  stop_loss_order_id : Option ℕ
  take_profit_order_id : Option ℕ
  software_stop_loss : Bool
  software_stop_loss_price : Option ℚ
  stop_loss_price : ℚ
  take_profit_price : ℚ

/-- Which exit closed the position. -/
inductive ExitEvent
  | nativeSL
  | softwareSL
  | nativeTP
  | softwareTP
deriving DecidableEq

/-- Stop-loss phase of the tick: the `if stop_loss_order_id and not
software_stop_loss ... elif software_stop_loss and current_price ...`
chain.  Returns the updated position, `position_closed`, and the exit
fired.  A software sell failing with a non-oversold error sets
`position_closed` without an exit (the source comment: prevent infinite
retries); a failed emergency protocol leaves the position open. -/
def sl_phase (env : MonitorEnv) (price : ℚ) (pos : SeqPosition) :
    SeqPosition × Bool × List ExitEvent :=
  if pos.stop_loss_order_id.isSome = true ∧ pos.software_stop_loss = false then
    match env.slStatus with
    | .filled => (pos, true, [.nativeSL])
    | .canceledLike =>
      ({ pos with software_stop_loss := true,
                  software_stop_loss_price := some pos.stop_loss_price }, false, [])
    | _ => (pos, false, [])
  else if pos.software_stop_loss = true ∧ price ≠ 0 then
    if price ≤ pos.software_stop_loss_price.getD pos.stop_loss_price then
      match env.slSell with
      | .ok => (pos, true, [.softwareSL])
      | .oversold =>
        if env.emergency then (pos, true, [.softwareSL]) else (pos, false, [])
      | .otherErr => (pos, true, [])
    else (pos, false, [])
  else (pos, false, [])

/-- Native take-profit phase: `if take_profit_order_id and not
position_closed`. -/
def native_tp_phase (env : MonitorEnv) (pos : SeqPosition) (closed : Bool) :
    Bool × List ExitEvent :=
  if pos.take_profit_order_id.isSome = true ∧ closed = false then
    match env.tpStatus with
    | .filled => (true, [.nativeTP])
    | _ => (false, [])
  else (false, [])

/-- Software take-profit phase: `if not take_profit_order_id and
current_price and not position_closed`. -/
def software_tp_phase (env : MonitorEnv) (price : ℚ) (pos : SeqPosition)
    (closed : Bool) : Bool × List ExitEvent :=
  if pos.take_profit_order_id = none ∧ price ≠ 0 ∧ closed = false then
    if pos.take_profit_price ≤ price then
      if env.tpSell then (true, [.softwareTP]) else (false, [])
    else (false, [])
  else (false, [])

/-- Result of one tick over a protected position. -/
structure TickResult where
  pos : SeqPosition
  removed : Bool
  exits : List ExitEvent

/-- One tick of the monitor over a `protected` position: fetch the price
(an exception ends the tick), then the stop-loss chain, then the native
take-profit check, then the software take-profit check; the position is
removed when `position_closed` ends true. -/
def monitor_protected_tick (env : MonitorEnv) (pos : SeqPosition) : TickResult :=
  match env.price with
  | none => ⟨pos, false, []⟩
  | some price =>
    let s := sl_phase env price pos
    let t := native_tp_phase env s.1 s.2.1
    let u := software_tp_phase env price s.1 (s.2.1 || t.1)
    ⟨s.1, s.2.1 || t.1 || u.1, s.2.2 ++ t.2 ++ u.2⟩

/-! ## Emergency liquidator, stage 2

Embedding of `TradingEngine._execute_limit_order_with_discount`
(`trading_engine.py` lines 1709-1783).  Only placement outcomes steer
the control flow; the outer `except` is unreachable because every
fallible call sits inside an inner `try`. -/

/-- Outcome of one discounted LIMIT placement: placed (and whether the
follow-up status check reports FILLED), or the placement raised. -/
inductive PlaceOutcome
  | placed (filled : Bool)
  | failed
deriving DecidableEq

/-- Exchange behaviour during the discount ladder: the precision lookup
result (`none` models the exception fallback) and the outcome of the
`i`-th placement attempt. -/
structure LadderEnv where
  precision : Option String
  outcome : ℕ → PlaceOutcome

/-- The four discount levels, in percent. -/
def discount_levels : List ℚ := [1/2, 1, 2, 3]

/-- The `for discount_name, discount_percent in discount_levels` loop:
a placement that the status check reports FILLED short-circuits with
success; a resting order or a failed placement continues; the loop
falling through returns success unconditionally (`return True` after
the loop).  Also counts the orders actually placed. -/
def ladder_go (outcome : ℕ → PlaceOutcome) : List ℚ → ℕ → ℕ → Bool × ℕ
  | [], _, placed => (true, placed)
  | _ :: rest, i, placed =>
    match outcome i with
    | .placed true => (true, placed + 1)
    | .placed false => ladder_go outcome rest (i + 1) (placed + 1)
    | .failed => ladder_go outcome rest (i + 1) placed

/-- `_execute_limit_order_with_discount`, returning the reported success
flag and the number of LIMIT SELL orders actually placed. -/
def execute_limit_order_with_discount (env : LadderEnv) (symbol : String)
    (quantity : ℚ) : Bool × ℕ :=
  let _formatted :=
    match env.precision with
    | some step => format_quantity symbol quantity step
    | none => pyRound quantity 1
  ladder_go env.outcome discount_levels 0 0

/-- An exchange on which every one of the four placements raises. -/
def ladder_env_all_fail : LadderEnv :=
  ⟨some "0.1", fun _ => .failed⟩

/-! ## Rounding lemmas -/

theorem roundHalfEven_intCast (n : ℤ) : roundHalfEven (n : ℚ) = n := by
  simp [roundHalfEven]

theorem abs_sub_roundHalfEven (x : ℚ) : |x - (roundHalfEven x : ℚ)| ≤ 1/2 := by
  have h0 : (⌊x⌋ : ℚ) ≤ x := Int.floor_le x
  have h1 : x < (⌊x⌋ : ℚ) + 1 := Int.lt_floor_add_one x
  unfold roundHalfEven
  by_cases hr : x - (⌊x⌋ : ℚ) < 1/2
  · rw [if_pos hr, abs_of_nonneg (by linarith)]; linarith
  · rw [if_neg hr]
    push_neg at hr
    by_cases hr2 : 1/2 < x - (⌊x⌋ : ℚ)
    · rw [if_pos hr2]
      push_cast
      rw [abs_of_nonpos (by linarith)]; linarith
    · rw [if_neg hr2]
      push_neg at hr2
      by_cases hd : 2 ∣ ⌊x⌋
      · rw [if_pos hd, abs_of_nonneg (by linarith)]; linarith
      · rw [if_neg hd]
        push_cast
        rw [abs_of_nonpos (by linarith)]; linarith

/-- A value already on the `10⁻ⁿ` grid is fixed by `pyRound`. -/
theorem pyRound_eq_self {m : ℚ} {n : ℕ} (h : ∃ k : ℤ, m * 10 ^ n = (k : ℚ)) :
    pyRound m n = m := by
  obtain ⟨k, hk⟩ := h
  have hpow : (0 : ℚ) < 10 ^ n := by positivity
  unfold pyRound
  rw [hk, roundHalfEven_intCast, ← hk]
  field_simp

theorem pyRound_grid (x : ℚ) (n : ℕ) : ∃ k : ℤ, pyRound x n * 10 ^ n = (k : ℚ) := by
  refine ⟨roundHalfEven (x * 10 ^ n), ?_⟩
  have hpow : (0 : ℚ) < 10 ^ n := by positivity
  unfold pyRound
  field_simp

theorem pyRound_pyRound (x : ℚ) (n : ℕ) : pyRound (pyRound x n) n = pyRound x n :=
  pyRound_eq_self (pyRound_grid x n)

theorem roundHalfEven_eq_of_lt {x : ℚ} {k : ℤ} (h0 : (k : ℚ) ≤ x)
    (h1 : x - (k : ℚ) < 1/2) : roundHalfEven x = k := by
  have hf : ⌊x⌋ = k := by
    rw [Int.floor_eq_iff]
    exact ⟨h0, by linarith⟩
  unfold roundHalfEven
  rw [hf, if_pos (by linarith)]

theorem roundHalfEven_eq_of_ge {x : ℚ} {k : ℤ} (h0 : x ≤ (k : ℚ))
    (h1 : (k : ℚ) - x < 1/2) : roundHalfEven x = k := by
  rcases eq_or_lt_of_le h0 with h | h
  · rw [h, roundHalfEven_intCast]
  · have hf : ⌊x⌋ = k - 1 := by
      rw [Int.floor_eq_iff]
      constructor
      · push_cast; linarith
      · push_cast; linarith
    unfold roundHalfEven
    rw [hf, if_neg (by push_cast; linarith), if_pos (by push_cast; linarith)]
    ring

/-! ## Parsing lemmas

The parsed value of a step-size string always lies on the grid of the
decimal precision that `step_decimal_places` reads off the same string:
trailing zeros are exactly what `rstrip('0')` removes. -/

theorem splitDot_ne_nil (l : List Char) : splitDot l ≠ [] := by
  induction l with
  | nil => simp [splitDot]
  | cons c t ih =>
    rw [splitDot]
    by_cases hc : c == '.'
    · rw [if_pos hc]; simp
    · rw [if_neg hc]
      rcases h : splitDot t with _ | ⟨a, r⟩
      · simp
      · simp

theorem splitDot_single_inv {l w : List Char} (h : splitDot l = [w]) :
    l = w ∧ '.' ∉ l := by
  induction l generalizing w with
  | nil =>
    rw [splitDot] at h
    simp_all
  | cons c t ih =>
    rw [splitDot] at h
    by_cases hc : c == '.'
    · rw [if_pos hc] at h
      exact absurd (List.cons.injEq _ _ _ _ ▸ h).2 (splitDot_ne_nil t)
    · rw [if_neg hc] at h
      rcases ht : splitDot t with _ | ⟨a, r⟩
      · exact absurd ht (splitDot_ne_nil t)
      · rw [ht] at h
        obtain ⟨hw, hr⟩ := List.cons.injEq _ _ _ _ ▸ h
        subst hr
        obtain ⟨hta, htd⟩ := ih ht
        subst hta hw
        refine ⟨rfl, ?_⟩
        intro hm
        rcases List.mem_cons.mp hm with he | hm
        · exact hc (by simp [he.symm])
        · exact htd hm

theorem splitDot_pair_inv {l w f : List Char} (h : splitDot l = [w, f]) :
    l = w ++ '.' :: f ∧ '.' ∉ w ∧ '.' ∉ f := by
  induction l generalizing w f with
  | nil =>
    rw [splitDot] at h
    simp_all
  | cons c t ih =>
    rw [splitDot] at h
    by_cases hc : c == '.'
    · rw [if_pos hc] at h
      obtain ⟨hw, hr⟩ := List.cons.injEq _ _ _ _ ▸ h
      obtain ⟨ht, htd⟩ := splitDot_single_inv hr
      subst ht
      have : c = '.' := by simpa using hc
      subst this
      exact ⟨by simp [hw], by simp [← hw], htd⟩
    · rw [if_neg hc] at h
      rcases ht : splitDot t with _ | ⟨a, r⟩
      · exact absurd ht (splitDot_ne_nil t)
      · rw [ht] at h
        obtain ⟨hw, hr⟩ := List.cons.injEq _ _ _ _ ▸ h
        subst hr
        obtain ⟨hta, hda, hdf⟩ := ih ht
        subst hta hw
        refine ⟨by simp, ?_, hdf⟩
        intro hm
        rcases List.mem_cons.mp hm with he | hm
        · exact hc (by simp [he.symm])
        · exact hda hm

theorem splitDot_of_no_dot {l : List Char} (h : '.' ∉ l) : splitDot l = [l] := by
  induction l with
  | nil => rfl
  | cons c t ih =>
    have hc : (c == '.') = false := by
      simp only [beq_eq_false_iff_ne, ne_eq]
      intro he
      exact h (he ▸ List.mem_cons_self c t)
    rw [splitDot, hc]
    simp only [Bool.false_eq_true, if_false]
    rw [ih fun hm => h (List.mem_cons_of_mem c hm)]

theorem splitDot_append_dot {w : List Char} (r : List Char) (hw : '.' ∉ w) :
    splitDot (w ++ '.' :: r) = w :: splitDot r := by
  induction w with
  | nil =>
    rw [List.nil_append, splitDot]
    simp
  | cons c t ih =>
    have hc : (c == '.') = false := by
      simp only [beq_eq_false_iff_ne, ne_eq]
      intro he
      exact hw (he ▸ List.mem_cons_self c t)
    rw [List.cons_append, splitDot, hc]
    simp only [Bool.false_eq_true, if_false]
    rw [ih fun hm => hw (List.mem_cons_of_mem c hm)]

theorem dropWhile_append_cons (p : Char → Bool) (b : Char) (a c : List Char)
    (hb : p b = false) :
    List.dropWhile p (a ++ b :: c) = List.dropWhile p a ++ b :: c := by
  induction a with
  | nil =>
    rw [List.nil_append, List.dropWhile_cons, hb]
    simp
  | cons x xs ih =>
    rw [List.cons_append, List.dropWhile_cons, List.dropWhile_cons]
    by_cases hx : p x
    · rw [if_pos hx, if_pos hx, ih]
    · rw [if_neg hx, if_neg hx, List.cons_append]

theorem dropRightZeros_append_dot (a f : List Char) :
    dropRightZeros (a ++ '.' :: f) = a ++ '.' :: dropRightZeros f := by
  unfold dropRightZeros
  rw [List.reverse_append, List.reverse_cons, List.append_assoc,
    List.singleton_append,
    dropWhile_append_cons (fun c => c == '0') '.' f.reverse a.reverse (by decide)]
  rw [List.reverse_append, List.reverse_cons, List.reverse_reverse]
  simp

theorem exists_replicate_dropRightZeros (l : List Char) :
    ∃ k, l = dropRightZeros l ++ List.replicate k '0' := by
  have h : ∀ m : List Char, ∃ k,
      m = List.replicate k '0' ++ m.dropWhile (fun c => c == '0') := by
    intro m
    induction m with
    | nil => exact ⟨0, rfl⟩
    | cons x xs ih =>
      by_cases hx : (x == '0') = true
      · obtain ⟨k, hk⟩ := ih
        have hx' : x = '0' := by simpa using hx
        subst hx'
        refine ⟨k + 1, ?_⟩
        rw [List.dropWhile_cons, if_pos (by decide), List.replicate_succ,
          List.cons_append, ← hk]
      · refine ⟨0, ?_⟩
        rw [List.dropWhile_cons, if_neg hx]
        simp
  obtain ⟨k, hk⟩ := h l.reverse
  refine ⟨k, ?_⟩
  unfold dropRightZeros
  conv_lhs => rw [← l.reverse_reverse, hk]
  rw [List.reverse_append, List.reverse_replicate]

theorem dropRightZeros_sublist (l : List Char) :
    List.Sublist (dropRightZeros l) l := by
  have h1 : List.Sublist (List.dropWhile (fun c => c == '0') l.reverse)
      l.reverse := List.dropWhile_sublist _
  have h2 := h1.reverse
  rw [List.reverse_reverse] at h2
  exact h2

theorem digitsVal_foldl (l : List Char) (init : ℕ) :
    l.foldl (fun a c => 10 * a + charDigit c) init =
      init * 10 ^ l.length + digitsVal l := by
  induction l generalizing init with
  | nil => simp [digitsVal]
  | cons c t ih =>
    have h2 : digitsVal (c :: t) =
        (10 * 0 + charDigit c) * 10 ^ t.length + digitsVal t := by
      rw [digitsVal, List.foldl_cons, ih]
    rw [List.foldl_cons, ih, h2, List.length_cons, pow_succ]
    ring

theorem digitsVal_append (a b : List Char) :
    digitsVal (a ++ b) = digitsVal a * 10 ^ b.length + digitsVal b := by
  rw [digitsVal, List.foldl_append, digitsVal_foldl]
  rfl

theorem digitsVal_replicate_zero (k : ℕ) :
    digitsVal (List.replicate k '0') = 0 := by
  induction k with
  | zero => rfl
  | succ n ih =>
    rw [List.replicate_succ, digitsVal, List.foldl_cons]
    have h0 : 10 * 0 + charDigit '0' = 0 := by decide
    rw [h0]
    exact ih

/-- Shape of `stripSignB`: the input is a dot-free sign part followed by
the returned remainder. -/
theorem stripSignB_shape (l : List Char) :
    ∃ pre, l = pre ++ (stripSignB l).2 ∧ '.' ∉ pre := by
  rcases l with _ | ⟨c, t⟩
  · exact ⟨[], rfl, by simp⟩
  · by_cases h1 : c = '-'
    · subst h1
      exact ⟨['-'], rfl, by decide⟩
    · by_cases h2 : c = '+'
      · subst h2
        exact ⟨['+'], rfl, by decide⟩
      · refine ⟨[], ?_, by simp⟩
        rw [List.nil_append]
        simp only [stripSignB]
        rw [if_neg (by simpa using h1), if_neg (by simpa using h2)]

/-- The key grid invariant: a successfully parsed step size denotes a
multiple of `10⁻ᵈᵖ` for the decimal-place count read from the same
string. -/
theorem parse_grid {l : List Char} {p : ParsedFloat}
    (h : parse_float_chars l = some p) :
    ∃ k : ℤ, p.val * 10 ^ dp_of_chars l = (k : ℚ) := by
  obtain ⟨pre, hl, hpre⟩ := stripSignB_shape l
  unfold parse_float_chars at h
  rcases hsplit : splitDot (stripSignB l).2 with _ | ⟨w, _ | ⟨f, _ | _⟩⟩ <;>
    rw [hsplit] at h
  · simp at h
  · -- no dot: the literal is an integer and dp = 0
    dsimp only at h
    obtain ⟨hw2, hwd⟩ := splitDot_single_inv hsplit
    by_cases hcond : (w.all Char.isDigit && !w.isEmpty) = true
    · rw [if_pos hcond] at h
      obtain hp := Option.some.inj h
      subst hp
      have hnd : '.' ∉ l := by
        rw [hl]
        simp only [List.mem_append]
        rintro (hm | hm)
        · exact hpre hm
        · exact hwd hm
      rw [dp_of_chars, if_neg hnd]
      rcases hneg : (stripSignB l).1 with _ | _
      · exact ⟨digitsVal w, by simp [ParsedFloat.val, hneg]⟩
      · exact ⟨-(digitsVal w), by simp [ParsedFloat.val, hneg]⟩
    · rw [if_neg hcond] at h
      exact absurd h (by simp)
  · -- one dot: dp counts the fractional digits left after rstrip('0')
    dsimp only at h
    obtain ⟨hw2, hwd, hfd⟩ := splitDot_pair_inv hsplit
    by_cases hcond :
        (w.all Char.isDigit && f.all Char.isDigit && !(w.isEmpty && f.isEmpty)) = true
    · rw [if_pos hcond] at h
      obtain hp := Option.some.inj h
      subst hp
      obtain ⟨k0, hk0⟩ := exists_replicate_dropRightZeros f
      set f' := dropRightZeros f with hf'
      have hldot : l = (pre ++ w) ++ '.' :: f := by
        rw [hl, hw2, List.append_assoc]
      have hmem : '.' ∈ l := by
        rw [hldot]
        simp
      have hdrop : dropRightZeros l = (pre ++ w) ++ '.' :: f' := by
        rw [hldot, dropRightZeros_append_dot]
      have hfd' : '.' ∉ f' := fun hm => hfd ((dropRightZeros_sublist f).mem hm)
      have hsp : splitDot (dropRightZeros l) = (pre ++ w) :: [f'] := by
        rw [hdrop, splitDot_append_dot _ (by
          simp only [List.mem_append]
          rintro (hm | hm)
          · exact hpre hm
          · exact hwd hm), splitDot_of_no_dot hfd']
      have hdp : dp_of_chars l = f'.length := by
        rw [dp_of_chars, if_pos hmem, hsp]
      have hfval : (digitsVal f : ℚ) = (digitsVal f' : ℚ) * 10 ^ k0 := by
        conv_lhs => rw [hk0]
        rw [digitsVal_append, digitsVal_replicate_zero]
        push_cast [List.length_replicate]
        ring
      have hflen : f.length = f'.length + k0 := by
        conv_lhs => rw [hk0]
        rw [List.length_append, List.length_replicate]
      rw [hdp]
      have h10 : (10 : ℚ) ^ f.length = 10 ^ f'.length * 10 ^ k0 := by
        rw [hflen, pow_add]
      have hpos : (0 : ℚ) < 10 ^ f'.length := by positivity
      have hpos2 : (0 : ℚ) < 10 ^ k0 := by positivity
      rcases hneg : (stripSignB l).1 with _ | _
      · refine ⟨(digitsVal w : ℤ) * 10 ^ f'.length + digitsVal f', ?_⟩
        simp only [ParsedFloat.val, hneg, Bool.false_eq_true, if_false, one_mul]
        rw [hfval, h10]
        push_cast
        field_simp
        ring
      · refine ⟨-((digitsVal w : ℤ) * 10 ^ f'.length + digitsVal f'), ?_⟩
        simp only [ParsedFloat.val, hneg, if_true]
        rw [hfval, h10]
        push_cast
        field_simp
        ring
    · rw [if_neg hcond] at h
      exact absurd h (by simp)
  · simp at h

/-! ## Formatting lemmas -/

/-- When the step lies on the `10⁻ᵈᵖ` grid, the final re-round of
`apply_step` is the identity: the result is exactly the chosen multiple
of the step. -/
theorem apply_step_grid_eq {dp : ℕ} {sf : ℚ} (hpos : 0 < sf)
    (hg : ∃ n : ℤ, sf * 10 ^ dp = (n : ℚ)) (q : ℚ) :
    apply_step dp sf q = (roundHalfEven (pyRound q dp / sf) : ℚ) * sf := by
  obtain ⟨n, hn⟩ := hg
  rw [apply_step, if_pos hpos]
  exact pyRound_eq_self ⟨roundHalfEven (pyRound q dp / sf) * n, by
    push_cast
    rw [← hn]
    ring⟩

theorem apply_step_idem {dp : ℕ} {sf : ℚ}
    (hg : ∃ n : ℤ, sf * 10 ^ dp = (n : ℚ)) (q : ℚ) :
    apply_step dp sf (apply_step dp sf q) = apply_step dp sf q := by
  by_cases hpos : 0 < sf
  · obtain ⟨n, hn⟩ := hg
    rw [apply_step_grid_eq hpos ⟨n, hn⟩ q]
    have hgrid : ∃ k : ℤ,
        (roundHalfEven (pyRound q dp / sf) : ℚ) * sf * 10 ^ dp = (k : ℚ) :=
      ⟨roundHalfEven (pyRound q dp / sf) * n, by
        push_cast
        rw [← hn]
        ring⟩
    have h2 := pyRound_eq_self hgrid
    rw [apply_step, if_pos hpos, h2,
      mul_div_cancel_right₀ _ (ne_of_gt hpos), roundHalfEven_intCast]
    exact h2
  · rw [apply_step, if_neg hpos, apply_step, if_neg hpos]
    exact pyRound_pyRound q dp

theorem fallback_quantity_idem (symbol : String) (q : ℚ) :
    fallback_quantity symbol (fallback_quantity symbol q) =
      fallback_quantity symbol q := by
  unfold fallback_quantity
  by_cases h1 : strContains symbol "XRP" = true
  · rw [if_pos h1, if_pos h1, pyRound_pyRound]
  · rw [if_neg h1, if_neg h1]
    by_cases h2 : (strContains symbol "BTC" || strContains symbol "ETH") = true
    · rw [if_pos h2, if_pos h2, pyRound_pyRound]
    · rw [if_neg h2, if_neg h2, pyRound_pyRound]

theorem heuristic_step_grid {symbol : String} {dp : ℕ} {sf : ℚ}
    (hg : ∃ n : ℤ, sf * 10 ^ dp = (n : ℚ)) :
    ∃ n : ℤ, (heuristic_step symbol dp sf).2 *
      10 ^ (heuristic_step symbol dp sf).1 = (n : ℚ) := by
  unfold heuristic_step
  by_cases hc : strContains symbol "USDT" = true ∧ sf < 1/1000
  · rw [if_pos hc]
    by_cases h1 : (strContains symbol "BTC" || strContains symbol "ETH") = true
    · rw [if_pos h1]
      exact ⟨1, by norm_num⟩
    · rw [if_neg h1]
      by_cases h2 : (strContains symbol "XRP" || strContains symbol "ADA" ||
          strContains symbol "DOGE" || strContains symbol "SHIB") = true
      · rw [if_pos h2]
        exact ⟨1, by norm_num⟩
      · rw [if_neg h2]
        exact ⟨1, by norm_num⟩
  · rw [if_neg hc]
    exact hg

/-- Reduce `format_quantity` to `apply_step` once the parse and the
heuristic have been evaluated. -/
theorem format_eq_apply (symbol step_size : String) (pf : ParsedFloat)
    (v : ℚ) (dp : ℕ) (sf : ℚ)
    (hparse : parse_float_chars step_size.toList = some pf) (hv : pf.val = v)
    (hh : heuristic_step symbol (step_decimal_places step_size) v = (dp, sf))
    (q : ℚ) :
    format_quantity symbol q step_size = apply_step dp sf q := by
  have hp : float_of_string step_size = some v := by
    rw [float_of_string, float_of_chars, hparse, Option.map_some', hv]
  simp only [format_quantity, hp, hh]

/-- Behaviour of the formatter with symbol `'UNKNOWN'` and step `'0.1'`:
it returns the nearest tenth (ties to even). -/
theorem format_quantity_unknown_01 (q : ℚ) :
    format_quantity "UNKNOWN" q "0.1" =
      (roundHalfEven (q * 10) : ℚ) / 10 := by
  have hh : heuristic_step "UNKNOWN" (step_decimal_places "0.1") (1/10) =
      (1, 1/10) := by
    rw [show step_decimal_places "0.1" = 1 from by decide, heuristic_step, if_neg]
    rintro ⟨h1, _⟩
    exact absurd h1 (by decide)
  rw [format_eq_apply "UNKNOWN" "0.1" ⟨false, 0, 1, 1⟩ (1/10) 1 (1/10)
    (by decide) (by norm_num [ParsedFloat.val]) hh q]
  have hz : pyRound q 1 / (1/10 : ℚ) = (roundHalfEven (q * 10 ^ 1) : ℚ) := by
    rw [pyRound]
    ring
  rw [apply_step, if_pos (by norm_num : (0:ℚ) < 1/10), hz, roundHalfEven_intCast,
    pyRound_eq_self ⟨roundHalfEven (q * 10 ^ 1), by ring⟩]
  ring

/-! ## Claims about quantity formatting -/

/-- C9: quantity formatting is idempotent — for every symbol, quantity
and step-size string, `format(format(q)) = format(q)`. -/
theorem format_quantity_idem (symbol : String) (q : ℚ) (step_size : String) :
    format_quantity symbol (format_quantity symbol q step_size) step_size =
      format_quantity symbol q step_size := by
  rcases hp : float_of_string step_size with _ | v
  · simp only [format_quantity, hp]
    exact fallback_quantity_idem symbol q
  · simp only [format_quantity, hp]
    obtain ⟨pf, hpf, hval⟩ := Option.map_eq_some'.mp
      (by rwa [float_of_string, float_of_chars] at hp)
    have hg : ∃ n : ℤ, v * 10 ^ step_decimal_places step_size = (n : ℚ) := by
      rw [step_decimal_places, ← hval]
      exact parse_grid hpf
    exact apply_step_idem (heuristic_step_grid hg) q

/-- C1 counterexample: at raw quantity 1.26 with step 0.1, rounding down
toward zero to a step multiple (the spec's words) gives 1.2, but
`format_quantity` gives 1.3: the code rounds to the NEAREST multiple. -/
theorem format_quantity_not_round_down :
    spec_format_qty_claimed (63/50) (1/10) 1 = 6/5 ∧
    format_quantity "UNKNOWN" (63/50) "0.1" = 13/10 := by
  constructor
  · have h1 : truncToward0 ((63/50 : ℚ) / (1/10)) = 12 := by
      rw [truncToward0, if_pos (by norm_num)]
      norm_num
    have h2 : truncToward0 (((12 : ℤ) : ℚ) * (1/10) * 10 ^ 1) = 12 := by
      rw [truncToward0, if_pos (by norm_num)]
      norm_num
    rw [spec_format_qty_claimed]
    rw [h1, h2]
    norm_num
  · rw [format_quantity_unknown_01,
      show (63/50 : ℚ) * 10 = 63/5 from by norm_num,
      roundHalfEven_eq_of_ge (by norm_num : (63/5 : ℚ) ≤ ((13 : ℤ) : ℚ))
        (by norm_num)]
    norm_num

/-- C1 (amended): with step 0.1 the formatter returns the multiple of 0.1
NEAREST to the raw quantity (within half a step, ties to even), rather
than rounding down; in particular 1.234 still formats to 1.2. -/
theorem format_quantity_rounds_to_nearest (q : ℚ) :
    (∃ k : ℤ, format_quantity "UNKNOWN" q "0.1" = (k : ℚ) / 10 ∧
      |q - (k : ℚ) / 10| ≤ 1/20) ∧
    format_quantity "UNKNOWN" (617/500) "0.1" = 6/5 := by
  constructor
  · refine ⟨roundHalfEven (q * 10), format_quantity_unknown_01 q, ?_⟩
    have h := abs_sub_roundHalfEven (q * 10)
    have h2 : q - (roundHalfEven (q * 10) : ℚ) / 10 =
        (q * 10 - (roundHalfEven (q * 10) : ℚ)) / 10 := by ring
    rw [h2, abs_div, abs_of_pos (by norm_num : (0:ℚ) < 10)]
    linarith
  · rw [format_quantity_unknown_01,
      show (617/500 : ℚ) * 10 = 617/50 from by norm_num,
      roundHalfEven_eq_of_lt (by norm_num : ((12 : ℤ) : ℚ) ≤ 617/50)
        (by norm_num)]
    norm_num

/-- C5 counterexample: formatting quantity 0.04 under step 0.1 (with the
symbol's `min_qty = 0.1`) returns the plain value 0 — there is no
min/max-quantity check in `format_quantity` and no `QuantityOutOfRange`
error anywhere in the source, so the caller receives the out-of-range
quantity itself. -/
theorem format_quantity_no_range_check :
    format_quantity "UNKNOWN" (1/25) "0.1" = 0 ∧ ¬((1 : ℚ)/10 ≤ 0) := by
  constructor
  · rw [format_quantity_unknown_01,
      show (1/25 : ℚ) * 10 = 2/5 from by norm_num,
      roundHalfEven_eq_of_lt (by norm_num : ((0 : ℤ) : ℚ) ≤ 2/5) (by norm_num)]
    norm_num
  · norm_num

/-- C5 (amended): the formatter performs no `min_qty ≤ q ≤ max_qty`
validation and returns the step-rounded value unconditionally; formatting
0.04 under step 0.1 yields 0, strictly below a `min_qty` of 0.1, as an
ordinary return value rather than an error. -/
theorem format_quantity_below_min :
    format_quantity "UNKNOWN" (1/25) "0.1" < 1/10 := by
  rw [format_quantity_unknown_01,
    show (1/25 : ℚ) * 10 = 2/5 from by norm_num,
    roundHalfEven_eq_of_lt (by norm_num : ((0 : ℤ) : ℚ) ≤ 2/5) (by norm_num)]
  norm_num

/-- C10: `format_quantity` is total; whenever step-size parsing fails
(`float(step_size)` raises), it still returns a value — the symbol-based
default precision: 1 decimal place for XRP pairs, 3 for BTC/ETH pairs,
2 otherwise. -/
theorem format_quantity_total_fallback (symbol : String) (q : ℚ) (s : String)
    (h : float_of_string s = none) :
    format_quantity symbol q s =
      if strContains symbol "XRP" = true then pyRound q 1
      else if (strContains symbol "BTC" || strContains symbol "ETH") = true then
        pyRound q 3
      else pyRound q 2 := by
  simp only [format_quantity, h]
  rfl

/-- C10 witness: the step string `'junk'` does not parse, and formatting
1.234 on an XRP pair falls back to one decimal place. -/
theorem format_quantity_total_fallback_witness :
    float_of_string "junk" = none ∧
    format_quantity "XRPUSDT" (617/500) "junk" =
      (if strContains "XRPUSDT" "XRP" = true then pyRound (617/500) 1
       else if (strContains "XRPUSDT" "BTC" || strContains "XRPUSDT" "ETH") = true
         then pyRound (617/500) 3
       else pyRound (617/500) 2) :=
  ⟨by decide, format_quantity_total_fallback "XRPUSDT" (617/500) "junk" (by decide)⟩

/-- The heuristic leaves the reported step unchanged when its guard
fails. -/
theorem heuristic_no_sub {symbol : String} {dp : ℕ} {sf : ℚ}
    (h : ¬(strContains symbol "USDT" = true ∧ sf < 1/1000)) :
    heuristic_step symbol dp sf = (dp, sf) := by
  rw [heuristic_step, if_neg h]

/-- C7: universally over symbols and reported steps — whenever the parsed
step of a USDT-pair symbol is below `10⁻³`, the formatter substitutes the
heuristic step (0.001 with 3 decimals for BTC/ETH pairs, 0.1 with 1
decimal for XRP/ADA/DOGE/SHIB pairs, 0.01 with 2 decimals for every other
USDT pair) in place of the reported one; otherwise — any non-USDT symbol,
or any step of `10⁻³` or larger — the reported step and its implied
precision are used unchanged. -/
theorem format_quantity_heuristic (symbol step_size : String) (q v : ℚ)
    (hv : float_of_string step_size = some v) :
    (strContains symbol "USDT" = true ∧ v < 1/1000 →
      format_quantity symbol q step_size =
        (if (strContains symbol "BTC" || strContains symbol "ETH") = true then
          apply_step 3 (1/1000) q
         else if (strContains symbol "XRP" || strContains symbol "ADA" ||
             strContains symbol "DOGE" || strContains symbol "SHIB") = true then
          apply_step 1 (1/10) q
         else apply_step 2 (1/100) q)) ∧
    (¬(strContains symbol "USDT" = true ∧ v < 1/1000) →
      format_quantity symbol q step_size =
        apply_step (step_decimal_places step_size) v q) := by
  constructor
  · intro hc
    simp only [format_quantity, hv]
    rw [heuristic_step, if_pos hc]
    by_cases h1 : (strContains symbol "BTC" || strContains symbol "ETH") = true
    · rw [if_pos h1, if_pos h1]
    · rw [if_neg h1, if_neg h1]
      by_cases h2 : (strContains symbol "XRP" || strContains symbol "ADA" ||
          strContains symbol "DOGE" || strContains symbol "SHIB") = true
      · rw [if_pos h2, if_pos h2]
      · rw [if_neg h2, if_neg h2]
  · intro hc
    simp only [format_quantity, hv]
    rw [heuristic_step, if_neg hc]

/-- C7 witness: the step string `'0.0005'` parses to `1/2000 < 10⁻³`, the
symbol ADAUSDT is a USDT pair, and formatting 1.234 on it uses the
heuristic step 0.1 with 1 decimal place. -/
theorem format_quantity_heuristic_witness :
    float_of_string "0.0005" = some (1/2000) ∧
    strContains "ADAUSDT" "USDT" = true ∧ ((1 : ℚ)/2000 < 1/1000) ∧
    format_quantity "ADAUSDT" (617/500) "0.0005" =
      apply_step 1 (1/10) (617/500) := by
  have hparse : float_of_string "0.0005" = some (1/2000) := by
    rw [float_of_string, float_of_chars,
      show parse_float_chars "0.0005".toList = some ⟨false, 0, 5, 4⟩ from by decide,
      Option.map_some']
    norm_num [ParsedFloat.val]
  refine ⟨hparse, by decide, by norm_num, ?_⟩
  have h := (format_quantity_heuristic "ADAUSDT" "0.0005" (617/500) (1/2000)
    hparse).1 ⟨by decide, by norm_num⟩
  rw [if_neg (by decide), if_pos (by decide)] at h
  exact h

/-! ## Claims about the monitor tick -/

/-- The stop-loss chain fires at most one exit, and any exit it fires
comes with `position_closed`. -/
theorem sl_phase_spec (env : MonitorEnv) (price : ℚ) (pos : SeqPosition) :
    (sl_phase env price pos).2.2.length ≤ 1 ∧
    ((sl_phase env price pos).2.2 = [] ∨ (sl_phase env price pos).2.1 = true) := by
  unfold sl_phase
  by_cases h1 : pos.stop_loss_order_id.isSome = true ∧ pos.software_stop_loss = false
  · rw [if_pos h1]
    cases env.slStatus <;> simp
  · rw [if_neg h1]
    by_cases h2 : pos.software_stop_loss = true ∧ price ≠ 0
    · rw [if_pos h2]
      by_cases h3 : price ≤ pos.software_stop_loss_price.getD pos.stop_loss_price
      · rw [if_pos h3]
        cases env.slSell with
        | ok => simp
        | oversold => rcases henv : env.emergency with _ | _ <;> simp [henv]
        | otherErr => simp
      · rw [if_neg h3]
        simp
    · rw [if_neg h2]
      simp

/-- The native take-profit check is skipped once the position closed. -/
theorem native_tp_phase_closed (env : MonitorEnv) (pos : SeqPosition) :
    native_tp_phase env pos true = (false, []) := by
  rw [native_tp_phase, if_neg (by simp)]

theorem native_tp_phase_spec (env : MonitorEnv) (pos : SeqPosition) (closed : Bool) :
    (native_tp_phase env pos closed).2.length ≤ 1 ∧
    ((native_tp_phase env pos closed).2 = [] ∨
      (native_tp_phase env pos closed).1 = true) := by
  unfold native_tp_phase
  by_cases h : pos.take_profit_order_id.isSome = true ∧ closed = false
  · rw [if_pos h]
    cases env.tpStatus <;> simp
  · rw [if_neg h]
    simp

/-- The software take-profit check is skipped once the position closed. -/
theorem software_tp_phase_closed (env : MonitorEnv) (price : ℚ)
    (pos : SeqPosition) :
    software_tp_phase env price pos true = (false, []) := by
  rw [software_tp_phase, if_neg (by simp)]

theorem software_tp_phase_spec (env : MonitorEnv) (price : ℚ)
    (pos : SeqPosition) (closed : Bool) :
    (software_tp_phase env price pos closed).2.length ≤ 1 := by
  unfold software_tp_phase
  by_cases h : pos.take_profit_order_id = none ∧ price ≠ 0 ∧ closed = false
  · rw [if_pos h]
    by_cases h2 : pos.take_profit_price ≤ price
    · rw [if_pos h2]
      rcases ht : env.tpSell with _ | _ <;> simp [ht]
    · rw [if_neg h2]
      simp
  · rw [if_neg h]
    simp

/-- Combining the three phases: the guards make a second exit impossible. -/
theorem combine_exits (a : List ExitEvent) (ca : Bool) (t u : Bool × List ExitEvent)
    (ha : a.length ≤ 1) (hac : a = [] ∨ ca = true)
    (ht1 : ca = true → t = (false, []))
    (ht2 : t.2.length ≤ 1) (ht3 : t.2 = [] ∨ t.1 = true)
    (hu1 : (ca || t.1) = true → u = (false, []))
    (hu2 : u.2.length ≤ 1) :
    (a ++ t.2 ++ u.2).length ≤ 1 := by
  by_cases hca : ca = true
  · have hu0 : u = (false, []) := hu1 (by rw [hca]; simp)
    rw [ht1 hca, hu0]
    simpa using ha
  · have ha0 : a = [] := by
      rcases hac with h | h
      · exact h
      · exact absurd h hca
    rw [ha0]
    by_cases htb : t.1 = true
    · have hu0 : u = (false, []) := hu1 (by rw [htb]; simp)
      rw [hu0]
      simpa using ht2
    · have ht0 : t.2 = [] := by
        rcases ht3 with h | h
        · exact h
        · exact absurd h htb
      rw [ht0]
      simpa using hu2

/-- C2: no tick of the sequential-bracket monitor over a protected
position fires more than one exit — the phases run in the order
native-SL / software-SL (mutually exclusive), native-TP, software-TP,
and every later phase is gated on `position_closed`, so once an exit has
fired the remaining qualifying conditions are discarded. -/
theorem monitor_tick_at_most_one_exit (env : MonitorEnv) (pos : SeqPosition) :
    (monitor_protected_tick env pos).exits.length ≤ 1 := by
  unfold monitor_protected_tick
  rcases hp : env.price with _ | price
  · simp
  · dsimp only
    obtain ⟨hsl_len, hsl_closed⟩ := sl_phase_spec env price pos
    obtain ⟨htl, htc⟩ := native_tp_phase_spec env (sl_phase env price pos).1
      (sl_phase env price pos).2.1
    exact combine_exits _ _ _ _ hsl_len hsl_closed
      (fun hc => by rw [hc] at *; exact native_tp_phase_closed _ _)
      htl htc
      (fun hc => by rw [hc] at *; exact software_tp_phase_closed _ _ _)
      (software_tp_phase_spec env price (sl_phase env price pos).1 _)

/-! ## Claims about the trading-window gate -/

/-- C6: the gate is true when no windows are configured, and otherwise
true iff some window contains the current time in its zone; for the
overnight window 22:00-06:00 UTC it is false at 21:59, true at 22:00,
true at 05:59, true at 06:00 and false at 06:01. -/
theorem is_trading_time_spec (ws : List TradingWindow) (f : String → ℕ) :
    (is_trading_time ws f = true ↔
      ws = [] ∨ ∃ w ∈ ws, window_contains w (f w.timezone) = true) ∧
    is_trading_time [overnight_utc] (fun _ => 21 * 3600 + 59 * 60) = false ∧
    is_trading_time [overnight_utc] (fun _ => 22 * 3600) = true ∧
    is_trading_time [overnight_utc] (fun _ => 5 * 3600 + 59 * 60) = true ∧
    is_trading_time [overnight_utc] (fun _ => 6 * 3600) = true ∧
    is_trading_time [overnight_utc] (fun _ => 6 * 3600 + 60) = false := by
  refine ⟨?_, by decide, by decide, by decide, by decide, by decide⟩
  rcases ws with _ | ⟨w, t⟩
  · simp [is_trading_time]
  · rw [is_trading_time, if_neg (by simp)]
    simp [List.any_eq_true]

/-! ## Claims about the request layer -/

/-- C3 counterexample: a 429 response is NOT retried — even when the
next response in the stream would be a 200, `_make_request` raises
immediately on the first 429.  The claimed retry-once behaviour would
return the 200 body. -/
theorem make_request_no_retry_on_429 :
    make_request [(429, "rate limited"), (200, "pong")] =
      Except.error (api_error_msg 429 "rate limited") ∧
    make_request [(429, "rate limited"), (200, "pong")] ≠ Except.ok "pong" :=
  ⟨rfl, fun h => Except.noConfusion h⟩

/-- C3 (amended): there is no 429-specific handling in `_make_request`:
any 429 response surfaces at once as a raised error, with no backoff and
no second attempt (the rest of the response stream is irrelevant). -/
theorem make_request_429_immediate_error (body : String)
    (rest : List (ℕ × String)) :
    make_request ((429, body) :: rest) =
      Except.error (api_error_msg 429 body) := by
  show handle_response 429 body = Except.error (api_error_msg 429 body)
  rw [handle_response, if_neg (by decide)]

/-! ## Claims about the ticker price -/

/-- C4 counterexample: a failed ticker fetch propagates as a raised
exception out of `get_current_price`; the caller does not receive the
documented sentinel 0. -/
theorem get_current_price_propagates :
    get_current_price (Except.error "MEXC API Error 500: boom") =
      Except.error "MEXC API Error 500: boom" ∧
    get_current_price (Except.error "MEXC API Error 500: boom") ≠
      Except.ok 0 :=
  ⟨rfl, fun h => Except.noConfusion h⟩

/-- C4 (amended): on success `get_current_price` returns the last price
as a float; on any failure the exception propagates (the `except` clause
logs and re-raises) — no code path returns 0. -/
theorem get_current_price_spec (p : ℚ) (e : String) :
    get_current_price (Except.ok (some p)) = Except.ok p ∧
    get_current_price (Except.error e) = Except.error e :=
  ⟨rfl, rfl⟩

/-! ## Claims about the emergency liquidator -/

/-- C8: the discount-ladder stage reports success even when every one of
the four discounted LIMIT SELL placements raises and no order is placed
at all — the `return True` after the loop is unconditional, contradicting
the source's own comment ("Consider success if we placed orders"). -/
theorem discount_ladder_success_without_orders :
    execute_limit_order_with_discount ladder_env_all_fail "XRPUSDT" 5 =
      (true, 0) := by
  decide

end MEXC
